import Mathlib

/-!
Verification of the study-log journal application (src/src/App.jsx).

The application is a single component managing a list of posts that is
loaded from a local-storage slot, filtered and sorted for display, and
modified by submit / remove / reset handlers.  The definitions below are
a shallow embedding of that component: pure JavaScript string and array
operations become Lean functions over String and List, the nondeterminism
of the clock and of the id generator becomes explicit parameters, and the
browser confirm dialog becomes a Bool parameter.

JavaScript string primitives (trim, toLowerCase, split, includes,
localeCompare on ISO dates) are modelled over List Char so that every
definition evaluates inside the kernel.
-/

namespace StudyLog

/-- A post, with the exact fields of the objects in App.jsx. -/
structure Post where
  id : String
  title : String
  date : String
  tags : List String
  summary : String
  content : String
deriving DecidableEq

/-- A form draft: same shape as Post minus id, but tags is the raw
comma-separated input string. -/
structure Draft where
  title : String
  date : String
  tags : String
  summary : String
  content : String
deriving DecidableEq

/-- The fixed storage key of the local-storage slot. -/
def STORAGE_KEY : String := "independent-study-posts-v1"

/-- The two fixed example posts (the seed set) from App.jsx. -/
def seedPosts : List Post :=
  [ { id := "seed-1"
      title := "Kickoff and goals"
      date := "2026-01-28"
      tags := ["planning", "goals"]
      summary := "Defined the scope, schedule, and first-week focus."
      content := "Mapped out weekly themes, picked core resources, and set a simple daily routine." },
    { id := "seed-2"
      title := "First practice session"
      date := "2026-01-27"
      tags := ["practice", "notes"]
      summary := "Completed the first hands-on exercise and documented gaps."
      content := "Built a tiny prototype, captured what felt confusing, and wrote follow-up questions." } ]

/-- Untyped JSON values, as produced by JSON.parse.  The stored slot is
parsed with no further validation, so elements of a stored array need not
be Post-shaped. -/
inductive JsValue where
  | vnull : JsValue
  | vbool : Bool → JsValue
  | vnum : Int → JsValue
  | vstr : String → JsValue
  | varr : List JsValue → JsValue
  | vobj : List (String × JsValue) → JsValue

/-- The JSON shape of a post, as JSON.stringify serialises the objects of
App.jsx (field order id, title, date, tags, summary, content). -/
def postToJs (p : Post) : JsValue :=
  .vobj [ ("id", .vstr p.id), ("title", .vstr p.title), ("date", .vstr p.date),
          ("tags", .varr (p.tags.map JsValue.vstr)),
          ("summary", .vstr p.summary), ("content", .vstr p.content) ]

/-- The seed set in its JSON shape. -/
def seedPostsJs : List JsValue := seedPosts.map postToJs

/-- The possible states of the local-storage slot, as loadPosts observes
them: getItem returned null; the stored string is empty (falsy, so the
early return fires before any parse); JSON.parse throws; or JSON.parse
returns a value. -/
inductive Stored where
  | absent : Stored
  | empty : Stored
  | malformed : Stored
  | parsed : JsValue → Stored

/-- The elements of a JSON array, if the value is an array
(Array.isArray). -/
def arrElems : JsValue → Option (List JsValue)
  | .varr xs => some xs
  | _ => none

/-- loadPosts from App.jsx.  Besides the resulting collection it returns
whether console.error was called (true exactly on a parse failure). -/
def loadPosts : Stored → List JsValue × Bool
  | .absent => (seedPostsJs, false)
  | .empty => (seedPostsJs, false)
  | .malformed => (seedPostsJs, true)
  | .parsed v =>
    match v with
    | .varr xs => (xs, false)
    | _ => (seedPostsJs, false)

/-- JavaScript String.prototype.trim: drop leading and trailing
whitespace. -/
def jsTrim (s : String) : String :=
  ⟨((s.data.dropWhile Char.isWhitespace).reverse.dropWhile Char.isWhitespace).reverse⟩

/-- JavaScript String.prototype.toLowerCase, character by character. -/
def jsToLower (s : String) : String :=
  ⟨s.data.map Char.toLower⟩

/-- JavaScript String.prototype.split with a one-character separator,
over the character list: split("," ) of "" is [""], and a trailing
separator yields a trailing empty token. -/
def splitChar (sep : Char) : List Char → List (List Char)
  | [] => [[]]
  | c :: cs =>
    match splitChar sep cs with
    | [] => if c = sep then [[], []] else [[c]]
    | piece :: rest =>
      if c = sep then [] :: piece :: rest else (c :: piece) :: rest

/-- JavaScript s.split(","). -/
def jsSplitComma (s : String) : List String :=
  (splitChar ',' s.data).map (fun cs => ⟨cs⟩)

/-- JavaScript hay.includes(pat): substring containment. -/
def jsIncludes (hay pat : String) : Bool :=
  decide (pat.data <:+: hay.data)

/-- Executable lexicographic comparison of character lists, the order
that localeCompare induces on zero-padded ISO date strings. -/
def lexLt : List Char → List Char → Bool
  | [], [] => false
  | [], _ :: _ => true
  | _ :: _, [] => false
  | a :: as, b :: bs =>
    if a < b then true
    else if b < a then false
    else lexLt as bs

/-- JavaScript a.localeCompare(b) on date strings: negative, zero or
positive as a is before, equal to, or after b. -/
def localeCompare (a b : String) : Int :=
  if lexLt a.data b.data then -1
  else if a = b then 0
  else 1

/-- The comparator relation of the display sort: the sort callback is
(a, b) => b.date.localeCompare(a.date), and a stays before b when the
callback is nonpositive. -/
def jsDateLe (a b : Post) : Prop := localeCompare b.date a.date ≤ 0

instance : DecidableRel jsDateLe :=
  fun a b => inferInstanceAs (Decidable (_ ≤ _))

/-- The spec-side display order: descending by the date string, that is,
the date of the earlier element is at least the date of the later one. -/
def specDateLe (a b : Post) : Prop := b.date ≤ a.date

instance : DecidableRel specDateLe :=
  fun a b => inferInstanceAs (Decidable (_ ≤ _))

instance : IsTotal Post specDateLe := ⟨fun a b => le_total b.date a.date⟩

instance : IsTrans Post specDateLe := ⟨fun _ _ _ h1 h2 => le_trans h2 h1⟩

/-- The display sort: [...posts].sort((a, b) => b.date.localeCompare(a.date)).
Array.prototype.sort is stable, so it is modelled as a stable sort by the
comparator relation. -/
def sortPosts (posts : List Post) : List Post :=
  List.insertionSort jsDateLe posts

/-- The haystack of a post: [title, summary, content, ...tags].join(" ")
lower-cased. -/
def postHaystack (post : Post) : String :=
  jsToLower (String.intercalate " " ([post.title, post.summary, post.content] ++ post.tags))

/-- filteredPosts from App.jsx: sort a copy of the collection descending
by date; if the normalized query is empty return it, otherwise keep the
posts whose haystack contains the normalized query. -/
def filteredPosts (posts : List Post) (query : String) : List Post :=
  let normalized := jsToLower (jsTrim query)
  let list := sortPosts posts
  if normalized = "" then list
  else list.filter (fun post => jsIncludes (postHaystack post) normalized)

/-- Modelled from the spec wording of section 4.4: sort the full
collection descending by date (string comparison). -/
def specSorted (posts : List Post) : List Post :=
  List.insertionSort specDateLe posts

/-- Modelled from the spec wording of section 4.4: the lower-cased
haystack joins title, summary, content and all tags with spaces. -/
def specHaystack (post : Post) : String :=
  jsToLower (String.intercalate " " ([post.title, post.summary, post.content] ++ post.tags))

/-- Modelled from the spec wording of section 4.4: the sorted collection
when the trimmed lower-cased query is empty, otherwise the posts kept iff
the haystack contains the query as a substring. -/
def specView (posts : List Post) (query : String) : List Post :=
  let q := jsToLower (jsTrim query)
  if q = "" then specSorted posts
  else (specSorted posts).filter (fun post => jsIncludes (specHaystack post) q)

/-- Tag parsing of handleSubmit:
draft.tags.split(",").map(tag => tag.trim()).filter(Boolean). -/
def parseTags (s : String) : List String :=
  ((jsSplitComma s).map jsTrim).filter (fun t => !(t == ""))

/-- handleSubmit from App.jsx.  The id generator and the clock are
nondeterministic, so the fresh id (makeId()) and the current date are
parameters.  Returns the new collection and the new draft. -/
def handleSubmit (draft : Draft) (posts : List Post) (freshId today : String) :
    List Post × Draft :=
  if jsTrim draft.title = "" ∨ jsTrim draft.content = "" then (posts, draft)
  else
    let newPost : Post :=
      { id := freshId
        title := jsTrim draft.title
        date := if draft.date = "" then today else draft.date
        tags := parseTags draft.tags
        summary := jsTrim draft.summary
        content := jsTrim draft.content }
    (newPost :: posts,
      -- { ...emptyDraft, date: newPost.date }: every field of emptyDraft
      -- except date is "", and date is overridden with newPost.date.
      { title := "", date := newPost.date, tags := "", summary := "", content := "" })

/-- removePost from App.jsx: current.filter(post => post.id !== id). -/
def removePost (i : String) (posts : List Post) : List Post :=
  posts.filter (fun post => !(post.id == i))

/-- resetPosts from App.jsx; the confirm() dialog becomes the Bool
parameter (declined means early return). -/
def resetPosts (confirmed : Bool) (posts : List Post) : List Post :=
  if confirmed then seedPosts else posts

/-- emptyDraft from App.jsx.  Its date field is new Date() at the moment
the module is evaluated, hence a parameter holding the module-load
date. -/
def emptyDraft (moduleDate : String) : Draft :=
  { title := "", date := moduleDate, tags := "", summary := "", content := "" }

/-- A store operation: add prepends (setPosts(current => [newPost, ...current]))
and remove filters by id. -/
inductive StoreOp where
  | add : Post → StoreOp
  | remove : String → StoreOp

/-- Apply one store operation. -/
def applyOp (posts : List Post) : StoreOp → List Post
  | .add p => p :: posts
  | .remove i => removePost i posts

/-- Apply a sequence of store operations, first operation first. -/
def applyOps (posts : List Post) : List StoreOp → List Post
  | [] => posts
  | op :: ops => applyOps (applyOp posts op) ops

/-- The number of adds in a sequence of store operations. -/
def countAdds : List StoreOp → Nat
  | [] => 0
  | .add _ :: ops => countAdds ops + 1
  | .remove _ :: ops => countAdds ops

/-- The ids of the posts added by a sequence of store operations. -/
def addedIds : List StoreOp → List String
  | [] => []
  | .add p :: ops => p.id :: addedIds ops
  | .remove _ :: ops => addedIds ops

/-- Whether some post of the collection has the given id. -/
def idPresent (posts : List Post) (i : String) : Bool :=
  posts.any (fun p => p.id == i)

/-- The number of successful removes in a sequence of store operations
run from the given collection: a remove is successful when a post with
that id is present at the moment it runs. -/
def countSuccessfulRemoves (posts : List Post) : List StoreOp → Nat
  | [] => 0
  | .add p :: ops => countSuccessfulRemoves (p :: posts) ops
  | .remove i :: ops =>
    (if idPresent posts i then 1 else 0) + countSuccessfulRemoves (removePost i posts) ops

/-- The data-model invariant of section 3 of the spec: non-empty title
and content, no empty tag, pairwise distinct ids. -/
def Invariant (posts : List Post) : Prop :=
  (∀ p ∈ posts, p.title ≠ "" ∧ p.content ≠ "" ∧ "" ∉ p.tags) ∧ (posts.map Post.id).Nodup

/-- The states of the store reachable per the wording of claim C7: a
state straight after loadPosts (the stored slot is arbitrary, and the
loaded array is taken verbatim), or the image of a reachable state under
a submit, remove or reset handler. -/
inductive ClaimReachable : List Post → Prop
  | load (st : Stored) (posts : List Post)
      (h : (loadPosts st).1 = posts.map postToJs) : ClaimReachable posts
  | submit (d : Draft) (fid today : String) {posts : List Post}
      (h : ClaimReachable posts) : ClaimReachable (handleSubmit d posts fid today).1
  | remove (i : String) {posts : List Post}
      (h : ClaimReachable posts) : ClaimReachable (removePost i posts)
  | reset (c : Bool) {posts : List Post}
      (h : ClaimReachable posts) : ClaimReachable (resetPosts c posts)

/-- The states of the store reachable from the seed set by the handlers,
where every submit draws an id that is not already in the collection
(what makeId is meant to deliver). -/
inductive Reachable : List Post → Prop
  | seed : Reachable seedPosts
  | submit (d : Draft) (fid today : String) {posts : List Post}
      (h : Reachable posts) (hf : fid ∉ posts.map Post.id) :
      Reachable (handleSubmit d posts fid today).1
  | remove (i : String) {posts : List Post}
      (h : Reachable posts) : Reachable (removePost i posts)
  | reset (c : Bool) {posts : List Post}
      (h : Reachable posts) : Reachable (resetPosts c posts)

/-- The whole component state: the three useState cells, the stored
slot, and the date captured by emptyDraft when the module was
evaluated. -/
structure AppState where
  posts : List Post
  draft : Draft
  query : String
  stored : Stored
  moduleDate : String

/-- The displayed feed: the filteredPosts memo. -/
def viewOf (st : AppState) : List Post :=
  filteredPosts st.posts st.query

/-- The save effect, useEffect(..., [posts]): after a state change it
rewrites the slot with the serialised collection, but only when the
posts cell changed. -/
def afterRender (old new : AppState) : AppState :=
  if new.posts = old.posts then new
  else { new with stored := Stored.parsed (.varr (new.posts.map postToJs)) }

/-- Typing in the search box: setQuery, then the render cycle. -/
def setQueryStep (st : AppState) (q : String) : AppState :=
  afterRender st { st with query := q }

/-- The Clear button: setDraft({ ...emptyDraft }), then the render
cycle.  The date written into the draft is the one emptyDraft captured
at module load, not the date of the click. -/
def clearStep (st : AppState) : AppState :=
  afterRender st { st with draft := emptyDraft st.moduleDate }

/-- A post whose only match for query "PLAN" is the tag "planning". -/
def demoTagPost : Post :=
  { id := "t1", title := "Weekly sync", date := "2026-02-02",
    tags := ["planning"], summary := "", content := "notes" }

/-- A Post-shaped stored object that violates the data-model invariant:
its title is empty. -/
def badPost : Post :=
  { id := "x", title := "", date := "2026-01-01", tags := [], summary := "", content := "c" }

/-- Two posts that share one id, as the timestamp fallback of makeId can
produce inside one millisecond. -/
def dupA : Post :=
  { id := "post-17", title := "first", date := "2026-02-01", tags := [], summary := "", content := "a" }

/-- Second post with the same id as dupA. -/
def dupB : Post :=
  { id := "post-17", title := "second", date := "2026-02-01", tags := [], summary := "", content := "b" }

/-- An operation sequence refuting claim C6 as stated: two adds that
share an id, then one remove of that id. -/
def dupOps : List StoreOp :=
  [StoreOp.add dupA, StoreOp.add dupB, StoreOp.remove "post-17"]

/-- A concrete state for the counterexample to claim C8: the app was
loaded on 2026-01-01 and is still open the next day. -/
def demoState : AppState :=
  { posts := seedPosts, draft := { title := "t", date := "2026-01-01", tags := "", summary := "", content := "c" },
    query := "", stored := Stored.absent, moduleDate := "2026-01-01" }

/-- A valid draft with whitespace around the fields and a tags string
with empty tokens. -/
def demoDraft : Draft :=
  { title := " A ", date := "", tags := "planning, , practice,", summary := "", content := " B " }

/-- A draft whose title trims to the empty string although the content
is non-empty. -/
def demoInvalidDraft : Draft :=
  { title := "   ", date := "2026-02-03", tags := "x", summary := "s", content := "body" }

/-- An operation sequence whose added ids are pairwise distinct: two
adds, one successful remove, one unsuccessful remove. -/
def freshOps : List StoreOp :=
  [StoreOp.add dupA, StoreOp.add demoTagPost, StoreOp.remove "post-17", StoreOp.remove "zzz"]

end StudyLog

namespace StudyLog

/-! Bridging the executable comparator to the lexicographic string order. -/

theorem lexLt_iff_lex : ∀ as bs : List Char, lexLt as bs = true ↔ List.Lex (· < ·) as bs
  | [], [] => by
    simp only [lexLt, Bool.false_eq_true, false_iff]
    intro h; cases h
  | [], _ :: _ => by
    simp only [lexLt, true_iff]
    exact List.Lex.nil
  | _ :: _, [] => by
    simp only [lexLt, Bool.false_eq_true, false_iff]
    intro h; cases h
  | a :: as, b :: bs => by
    simp only [lexLt]
    rcases lt_trichotomy a b with hab | hab | hab
    · simp only [if_pos hab, true_iff]
      exact List.Lex.rel hab
    · subst hab
      simp only [lt_irrefl, if_false, if_neg (lt_irrefl a)]
      rw [lexLt_iff_lex as bs]
      constructor
      · exact List.Lex.cons
      · intro h
        cases h with
        | cons h => exact h
        | rel h => exact absurd h (lt_irrefl a)
    · have hnab : ¬ a < b := lt_asymm hab
      simp only [if_neg hnab, if_pos hab, Bool.false_eq_true, false_iff]
      intro h
      cases h with
      | cons h => exact absurd hab (lt_irrefl _)
      | rel h => exact absurd h hnab

theorem strLt_iff (x y : String) : lexLt x.data y.data = true ↔ x < y := by
  rw [String.lt_iff_toList_lt]
  exact lexLt_iff_lex x.data y.data

theorem localeCompare_le_iff (x y : String) : localeCompare x y ≤ 0 ↔ x ≤ y := by
  unfold localeCompare
  by_cases hlt : lexLt x.data y.data = true
  · rw [if_pos hlt]
    exact iff_of_true (by norm_num) (le_of_lt ((strLt_iff x y).mp hlt))
  · rw [if_neg hlt]
    by_cases heq : x = y
    · rw [if_pos heq]
      exact iff_of_true le_rfl (heq ▸ le_rfl)
    · rw [if_neg heq]
      refine iff_of_false (by norm_num) ?_
      have hyx : y < x := by
        rcases lt_trichotomy x y with h | h | h
        · exact absurd ((strLt_iff x y).mpr h) hlt
        · exact absurd h heq
        · exact h
      exact not_le.mpr hyx

theorem jsDateLe_iff_specDateLe (a b : Post) : jsDateLe a b ↔ specDateLe a b :=
  localeCompare_le_iff b.date a.date

theorem orderedInsert_congr {α : Type} (r s : α → α → Prop) [DecidableRel r] [DecidableRel s]
    (hrs : ∀ a b, r a b ↔ s a b) (a : α) :
    ∀ l : List α, List.orderedInsert r a l = List.orderedInsert s a l
  | [] => rfl
  | b :: l => by
    simp only [List.orderedInsert]
    by_cases hr : r a b
    · rw [if_pos hr, if_pos ((hrs a b).mp hr)]
    · rw [if_neg hr, if_neg (fun hs => hr ((hrs a b).mpr hs)), orderedInsert_congr r s hrs a l]

theorem insertionSort_congr {α : Type} (r s : α → α → Prop) [DecidableRel r] [DecidableRel s]
    (hrs : ∀ a b, r a b ↔ s a b) :
    ∀ l : List α, List.insertionSort r l = List.insertionSort s l
  | [] => rfl
  | b :: l => by
    simp only [List.insertionSort]
    rw [insertionSort_congr r s hrs l, orderedInsert_congr r s hrs b]

theorem sortPosts_eq_specSorted (posts : List Post) : sortPosts posts = specSorted posts :=
  insertionSort_congr jsDateLe specDateLe jsDateLe_iff_specDateLe posts

theorem filteredPosts_eq_specView (posts : List Post) (query : String) :
    filteredPosts posts query = specView posts query := by
  unfold filteredPosts specView
  rw [sortPosts_eq_specSorted]
  rfl

theorem filteredPosts_sorted (posts : List Post) (query : String) :
    (filteredPosts posts query).Sorted specDateLe := by
  unfold filteredPosts
  rw [sortPosts_eq_specSorted]
  by_cases h : jsToLower (jsTrim query) = ""
  · simp only [if_pos h]
    exact List.sorted_insertionSort specDateLe posts
  · simp only [if_neg h]
    exact (List.sorted_insertionSort specDateLe posts).filter _

/-! Length accounting for sequences of store operations. -/

theorem removePost_of_absent {posts : List Post} {i : String}
    (hp : idPresent posts i = false) : removePost i posts = posts := by
  rw [idPresent, List.any_eq_false] at hp
  refine List.filter_eq_self.mpr (fun p hmem => ?_)
  have := hp p hmem
  simp only [beq_iff_eq] at this
  simp [this]

theorem removePost_length_of_present {posts : List Post} {i : String}
    (hnd : (posts.map Post.id).Nodup) (hp : idPresent posts i = true) :
    (removePost i posts).length + 1 = posts.length := by
  induction posts with
  | nil => simp [idPresent] at hp
  | cons p rest ih =>
    rw [List.map_cons, List.nodup_cons] at hnd
    by_cases hpi : p.id = i
    · have hrest : idPresent rest i = false := by
        rw [idPresent, List.any_eq_false]
        intro q hq
        simp only [beq_iff_eq]
        intro hqi
        exact hnd.1 (hpi ▸ hqi ▸ List.mem_map_of_mem Post.id hq)
      have hdrop := removePost_of_absent hrest
      unfold removePost at hdrop ⊢
      rw [List.filter_cons, if_neg (by simp [hpi]), hdrop, List.length_cons]
    · have hrest : idPresent rest i = true := by
        rw [idPresent, List.any_cons] at hp
        rcases (Bool.or_eq_true _ _).mp hp with h | h
        · exact absurd (beq_iff_eq.mp h) hpi
        · exact h
      have := ih hnd.2 hrest
      unfold removePost at this ⊢
      rw [List.filter_cons, if_pos (by simp [hpi]), List.length_cons, List.length_cons]
      omega

theorem applyOps_length_aux :
    ∀ (ops : List StoreOp) (posts : List Post),
      ((posts.map Post.id) ++ addedIds ops).Nodup →
      (applyOps posts ops).length + countSuccessfulRemoves posts ops
        = posts.length + countAdds ops
  | [], posts, _ => by simp [applyOps, countSuccessfulRemoves, countAdds]
  | StoreOp.add p :: ops, posts, h => by
    have h2 : (((p :: posts).map Post.id) ++ addedIds ops).Nodup := by
      simp only [addedIds] at h
      have hperm := @List.perm_middle _ p.id (posts.map Post.id) (addedIds ops)
      have := hperm.nodup h
      simpa using this
    have hrec := applyOps_length_aux ops (p :: posts) h2
    simp only [applyOps, applyOp, countSuccessfulRemoves, countAdds, List.length_cons] at hrec ⊢
    omega
  | StoreOp.remove i :: ops, posts, h => by
    simp only [addedIds] at h
    have hsub : (((removePost i posts).map Post.id) ++ addedIds ops).Nodup := by
      have hs : ((removePost i posts).map Post.id).Sublist (posts.map Post.id) :=
        List.Sublist.map Post.id (List.filter_sublist posts)
      exact List.Nodup.sublist (hs.append_right _) h
    have hrec := applyOps_length_aux ops (removePost i posts) hsub
    cases hcase : idPresent posts i with
    | false =>
      have heq := removePost_of_absent hcase
      simp only [applyOps, applyOp, countSuccessfulRemoves, countAdds, hcase,
        Bool.false_eq_true, if_false, heq] at hrec ⊢
      omega
    | true =>
      have hnd : (posts.map Post.id).Nodup := h.of_append_left
      have hlen := removePost_length_of_present hnd hcase
      simp only [applyOps, applyOp, countSuccessfulRemoves, countAdds, hcase, if_pos] at hrec ⊢
      omega

/-! The data-model invariant under the handlers. -/

theorem empty_not_mem_parseTags (s : String) : "" ∉ parseTags s := by
  intro h
  have := (List.mem_filter.mp h).2
  simp at this

theorem invariant_seed : Invariant seedPosts := ⟨by decide, by decide⟩

theorem handleSubmit_of_valid (d : Draft) (posts : List Post) (fid today : String)
    (ht : jsTrim d.title ≠ "") (hc : jsTrim d.content ≠ "") :
    handleSubmit d posts fid today =
      ({ id := fid, title := jsTrim d.title,
         date := if d.date = "" then today else d.date,
         tags := parseTags d.tags,
         summary := jsTrim d.summary, content := jsTrim d.content } :: posts,
       { title := "", date := if d.date = "" then today else d.date,
         tags := "", summary := "", content := "" }) := by
  unfold handleSubmit
  rw [if_neg (by push_neg; exact ⟨ht, hc⟩)]

theorem handleSubmit_of_invalid (d : Draft) (posts : List Post) (fid today : String)
    (h : jsTrim d.title = "" ∨ jsTrim d.content = "") :
    handleSubmit d posts fid today = (posts, d) := by
  unfold handleSubmit
  rw [if_pos h]

theorem invariant_submit {posts : List Post} (d : Draft) (fid today : String)
    (inv : Invariant posts) (hf : fid ∉ posts.map Post.id) :
    Invariant (handleSubmit d posts fid today).1 := by
  by_cases hg : jsTrim d.title = "" ∨ jsTrim d.content = ""
  · rw [handleSubmit_of_invalid d posts fid today hg]
    exact inv
  · push_neg at hg
    rw [handleSubmit_of_valid d posts fid today hg.1 hg.2]
    refine ⟨?_, ?_⟩
    · intro p hp
      rcases List.mem_cons.mp hp with hp | hp
      · subst hp
        exact ⟨hg.1, hg.2, empty_not_mem_parseTags d.tags⟩
      · exact inv.1 p hp
    · exact List.nodup_cons.mpr ⟨hf, inv.2⟩

theorem invariant_remove {posts : List Post} (i : String)
    (inv : Invariant posts) : Invariant (removePost i posts) := by
  refine ⟨?_, ?_⟩
  · intro p hp
    exact inv.1 p (List.mem_of_mem_filter hp)
  · exact List.Nodup.sublist (List.Sublist.map Post.id (List.filter_sublist posts)) inv.2

theorem invariant_reachable {posts : List Post} (h : Reachable posts) : Invariant posts := by
  induction h with
  | seed => exact invariant_seed
  | submit d fid today h hf ih => exact invariant_submit d fid today ih hf
  | remove i h ih => exact invariant_remove i ih
  | reset c h ih =>
    cases c with
    | false => exact ih
    | true => exact invariant_seed

end StudyLog

namespace StudyLog

/-- Claim C1: the displayed view is the collection sorted descending by
the date string; with an empty trimmed lower-cased query it is exactly
the sorted list, otherwise a post is kept iff the lower-cased join of
title, summary, content and tags contains the query as a substring, so a
post with tag "planning" matches query "PLAN". -/
theorem claim1_filtered_view_refines_spec :
    (∀ (posts : List Post) (query : String), filteredPosts posts query = specView posts query)
  ∧ (∀ (posts : List Post) (query : String), (filteredPosts posts query).Sorted specDateLe)
  ∧ filteredPosts [demoTagPost] "PLAN" = [demoTagPost] :=
  ⟨filteredPosts_eq_specView, filteredPosts_sorted, by decide⟩

/-- Claim C2: loadPosts returns the two-element seed set when nothing is
stored, when the stored value fails to parse, and when the parsed result
is not an array; it never throws, and console.error runs exactly on a
parse failure.  In the remaining case the parsed array itself is
returned. -/
theorem claim2_load_failure_fallback :
    loadPosts Stored.absent = (seedPostsJs, false)
  ∧ loadPosts Stored.empty = (seedPostsJs, false)
  ∧ loadPosts Stored.malformed = (seedPostsJs, true)
  ∧ (∀ v : JsValue, loadPosts (Stored.parsed v) = ((arrElems v).getD seedPostsJs, false))
  ∧ seedPostsJs.length = 2 := by
  refine ⟨rfl, rfl, rfl, ?_, rfl⟩
  intro v
  cases v <;> rfl

/-- Claim C3: for a draft whose trimmed title and content are non-empty,
handleSubmit prepends a post with trimmed title, summary and content,
the draft date or the current date if that is blank, the split, trimmed
and filtered tags, and the fresh id; the draft is reset to empty except
for the just-used date.  Tag input "planning, , practice," yields
["planning", "practice"]. -/
theorem claim3_submit_success (d : Draft) (posts : List Post) (freshId today : String)
    (ht : jsTrim d.title ≠ "") (hc : jsTrim d.content ≠ "") :
    handleSubmit d posts freshId today =
      ({ id := freshId, title := jsTrim d.title,
         date := if d.date = "" then today else d.date,
         tags := parseTags d.tags,
         summary := jsTrim d.summary, content := jsTrim d.content } :: posts,
       { title := "", date := if d.date = "" then today else d.date,
         tags := "", summary := "", content := "" })
    ∧ parseTags "planning, , practice," = ["planning", "practice"] :=
  ⟨handleSubmit_of_valid d posts freshId today ht hc, by decide⟩

/-- Witness for claim C3 at a concrete draft. -/
theorem claim3_submit_success_witness :
    jsTrim demoDraft.title ≠ "" ∧ jsTrim demoDraft.content ≠ ""
  ∧ (handleSubmit demoDraft [] "post-1" "2026-02-03" =
      ({ id := "post-1", title := "A", date := "2026-02-03",
         tags := ["planning", "practice"], summary := "", content := "B" } :: [],
       { title := "", date := "2026-02-03", tags := "", summary := "", content := "" })
     ∧ parseTags "planning, , practice," = ["planning", "practice"]) :=
  ⟨by decide, by decide,
   claim3_submit_success demoDraft [] "post-1" "2026-02-03" (by decide) (by decide)⟩

/-- Claim C4: when the trimmed title or the trimmed content of the draft
is empty, handleSubmit changes nothing: the collection and the draft are
returned unchanged and nothing is thrown. -/
theorem claim4_submit_invalid_noop (d : Draft) (posts : List Post) (freshId today : String)
    (h : jsTrim d.title = "" ∨ jsTrim d.content = "") :
    handleSubmit d posts freshId today = (posts, d) :=
  handleSubmit_of_invalid d posts freshId today h

/-- Witness for claim C4: an all-whitespace title with a non-empty
content is rejected. -/
theorem claim4_submit_invalid_noop_witness :
    (jsTrim demoInvalidDraft.title = "" ∨ jsTrim demoInvalidDraft.content = "")
  ∧ handleSubmit demoInvalidDraft seedPosts "post-9" "2026-02-03" = (seedPosts, demoInvalidDraft) :=
  ⟨Or.inl (by decide),
   claim4_submit_invalid_noop demoInvalidDraft seedPosts "post-9" "2026-02-03" (Or.inl (by decide))⟩

/-- Claim C5: resetPosts with the confirmation declined returns the
collection unchanged; with the confirmation accepted it returns exactly
the seed set, whatever the previous contents. -/
theorem claim5_reset_confirm_or_decline : ∀ posts : List Post,
    resetPosts false posts = posts ∧ resetPosts true posts = seedPosts :=
  fun _ => ⟨rfl, rfl⟩

/-- Counterexample to claim C6 as stated: from the empty collection, two
adds that share an id followed by one successful remove leave length 0,
not 2 - 1 = 1, because removePost filters out every post with the id. -/
theorem claim6_counterexample :
    ¬ (applyOps [] dupOps).length
        = countAdds dupOps - countSuccessfulRemoves [] dupOps := by
  decide

/-- Claim C6, amended: when the ids of the initial collection and of all
added posts are pairwise distinct, the final length equals the initial
length plus the number of adds minus the number of successful
removes. -/
theorem claim6_amended (posts : List Post) (ops : List StoreOp)
    (h : ((posts.map Post.id) ++ addedIds ops).Nodup) :
    (applyOps posts ops).length
      = posts.length + countAdds ops - countSuccessfulRemoves posts ops := by
  have := applyOps_length_aux ops posts h
  omega

/-- Witness for the amended claim C6 on a concrete sequence with two
adds, one successful and one unsuccessful remove. -/
theorem claim6_amended_witness :
    ((([] : List Post).map Post.id) ++ addedIds freshOps).Nodup
  ∧ (applyOps [] freshOps).length
      = ([] : List Post).length + countAdds freshOps - countSuccessfulRemoves [] freshOps :=
  ⟨by decide, claim6_amended [] freshOps (by decide)⟩

/-- Counterexample to claim C7 as stated: loadPosts validates nothing,
so loading a stored array holding a Post-shaped object with an empty
title reaches a state that violates the invariant. -/
theorem claim7_counterexample : ClaimReachable [badPost] ∧ ¬ Invariant [badPost] :=
  ⟨ClaimReachable.load (Stored.parsed (.varr [postToJs badPost])) [badPost] rfl,
   fun h => (h.1 badPost (List.mem_singleton.mpr rfl)).1 rfl⟩

/-- Claim C7, amended: every state reachable from the seed set through
submit, remove and reset, where each submit draws an id that is not
already in the collection, satisfies the invariant: non-empty title and
content, no empty tag, pairwise distinct ids. -/
theorem claim7_amended {posts : List Post} (h : Reachable posts) : Invariant posts :=
  invariant_reachable h

/-- Witness for the amended claim C7 at the seed state. -/
theorem claim7_amended_witness : Reachable seedPosts ∧ Invariant seedPosts :=
  ⟨Reachable.seed, claim7_amended Reachable.seed⟩

/-- Counterexample to claim C8 as stated: in a state loaded on
2026-01-01 and still open on 2026-01-02, the Clear button writes the
module-load date into the draft, not the current date of the click. -/
theorem claim8_counterexample : (clearStep demoState).draft.date ≠ "2026-01-02" := by
  decide

/-- Claim C8, amended: the Clear button resets every field of the draft
to empty and sets its date to the date captured when the module was
evaluated (the app start date); the collection and the stored slot are
untouched. -/
theorem claim8_amended : ∀ st : AppState,
    (clearStep st).draft
      = { title := "", date := st.moduleDate, tags := "", summary := "", content := "" }
  ∧ (clearStep st).posts = st.posts
  ∧ (clearStep st).stored = st.stored := by
  intro st
  refine ⟨?_, ?_, ?_⟩ <;> simp [clearStep, afterRender, emptyDraft]

/-- Claim C9: a stored value that parses as an array is returned
verbatim with no validation of its elements: the empty array yields the
empty collection, and non-Post-shaped elements pass through
unchanged. -/
theorem claim9_load_array_verbatim :
    (∀ xs : List JsValue, loadPosts (Stored.parsed (.varr xs)) = (xs, false))
  ∧ loadPosts (Stored.parsed (.varr [])) = ([], false)
  ∧ loadPosts (Stored.parsed (.varr [JsValue.vnum 5, JsValue.vstr "not a post"]))
      = ([JsValue.vnum 5, JsValue.vstr "not a post"], false) :=
  ⟨fun _ => rfl, rfl, rfl⟩

/-- Claim C10: deriving the view never mutates the store: a query change
followed by the render cycle leaves the collection, the stored slot and
the draft untouched, the view is a pure function of collection and
query, and the sort produces a rearranged copy (a permutation) while the
collection keeps its value. -/
theorem claim10_view_derivation_pure : ∀ (st : AppState) (q : String),
    (setQueryStep st q).posts = st.posts
  ∧ (setQueryStep st q).stored = st.stored
  ∧ (setQueryStep st q).draft = st.draft
  ∧ viewOf (setQueryStep st q) = filteredPosts st.posts q
  ∧ (sortPosts st.posts).Perm st.posts := by
  intro st q
  refine ⟨?_, ?_, ?_, ?_, List.perm_insertionSort jsDateLe st.posts⟩ <;>
    simp [setQueryStep, afterRender, viewOf]

end StudyLog
